import Mathlib

/-!
Shallow embedding of src/app/medio.py (Medio: automatic media organizer).
Pure fragments of the Python source are translated into executable Lean
definitions; the stateful Watcher is modelled by explicit state passing.
Python floats used as timestamps are modelled by integers (only their
ordering and subtraction matter), file contents by lists of bytes, and the
environment / filesystem by explicit functions passed as parameters.
-/

/-! ### Python value / environment model (Config, medio.py lines 24-50) -/

/-- Value of a Python expression that is either a string or a bool; this is
the type of `os.environ.get(key, default)` when the default is the bool
`True` (medio.py line 46). -/
inductive PyVal where
  | str (s : String)
  | bool (b : Bool)
deriving DecidableEq, Repr

/-- Python truthiness of such a value: a string is truthy iff non-empty, a
bool is itself. -/
def pyTruthy : PyVal → Bool
  | .str s => s ≠ ""
  | .bool b => b

/-- Model of `os.environ.get(key, default)`: the environment maps keys to
optional string values; a present value is a string, otherwise the default
is returned unchanged. -/
def envGet (env : String → Option String) (key : String) (dflt : PyVal) : PyVal :=
  match env key with
  | some v => .str v
  | none => dflt

/-- Module constant SRCDIR (medio.py line 14). -/
def SRCDIR : String := "/source"

/-- Module constant DSTDIR (medio.py line 15). -/
def DSTDIR : String := "/dest"

/-- Config.DEFAULT_DSTFMT (medio.py line 25), a raw Python string literal. -/
def DEFAULT_DSTFMT : String := "%Y/%m/%Y%m%d_%H%M%S%%-uc.%%e"

/-- The configuration surface the Worker reads: UI_DSTFMT (line 42, always a
string since the FORMAT default is a string) and UI_DELETE_DUPS (line 46,
a string when the env var is set, the bool True otherwise). -/
structure Config where
  UI_DSTFMT : String
  UI_DELETE_DUPS : PyVal
deriving DecidableEq, Repr

/-- Config built from an environment, per the properties at lines 40-46. -/
def configOf (env : String → Option String) : Config :=
  { UI_DSTFMT := match envGet env "FORMAT" (.str DEFAULT_DSTFMT) with
      | .str s => s
      | .bool _ => DEFAULT_DSTFMT
    UI_DELETE_DUPS := envGet env "DELETE_DUPLICATE" (.bool true) }

/-- The UI_DELETE_DUPS property (medio.py lines 44-46) as a function of the
environment. -/
def UI_DELETE_DUPS_of (env : String → Option String) : PyVal :=
  envGet env "DELETE_DUPLICATE" (.bool true)

/-- Python `str + val`: string concatenation, but a TypeError when the right
operand is a bool (as in `'ENV DELETE_DUPLICATE: ' + True`, line 29). -/
def pyStrAdd (a : String) (v : PyVal) : Except String String :=
  match v with
  | .str s => .ok (a ++ s)
  | .bool _ => .error "TypeError"

/-- Config.__init__ (medio.py lines 27-30): builds the three startup log
lines in order; the result is the list of lines logged, or the uncaught
TypeError that aborts construction. -/
def configInit (env : String → Option String) : Except String (List String) :=
  match pyStrAdd "ENV FORMAT: " (envGet env "FORMAT" (.str DEFAULT_DSTFMT)) with
  | .error e => .error e
  | .ok l1 =>
    match pyStrAdd "ENV DELETE_DUPLICATE: " (envGet env "DELETE_DUPLICATE" (.bool true)) with
    | .error e => .error e
    | .ok l2 =>
      match pyStrAdd "ENV LOCALE: " (envGet env "LOCALE" (.str "zh_CN.utf8")) with
      | .error e => .error e
      | .ok l3 => .ok [l1, l2, l3]

/-! ### String helpers mirroring the Python library functions used -/

/-- Python `\s` on the ASCII range (re module whitespace class). -/
def pySpace (c : Char) : Bool :=
  c = ' ' || c = '\t' || c = '\n' || c = '\r' || c = '\x0b' || c = '\x0c'

/-- Python `'-' in s` for a single-character needle: char membership. -/
def hasDash (s : String) : Bool := decide ('-' ∈ s.data)

/-- Python `s.split('-')[0]`: everything before the first dash (the whole
string when there is no dash), as used at medio.py line 107. -/
def beforeDash (s : String) : String := String.mk (s.data.takeWhile (fun c => c != '-'))

/-- os.path.splitext on POSIX, on the character list: split off the
extension at the last dot of the basename, except when every character of
the basename before that dot is itself a dot (CPython genericpath._splitext
with sep `/` and extsep `.`). -/
def splitextL (p : List Char) : List Char × List Char :=
  match p.reverse.drop ((p.reverse.takeWhile (fun c => !(c = '.' || c = '/'))).length) with
  | '.' :: restMore =>
    if (restMore.takeWhile (fun c => c != '/')).all (fun c => c = '.') then (p, [])
    else (restMore.reverse, '.' :: (p.reverse.takeWhile (fun c => !(c = '.' || c = '/'))).reverse)
  | _ => (p, [])

/-- os.path.splitext on strings. -/
def splitext (p : String) : String × String :=
  ((splitextL p.data).1.asString, (splitextL p.data).2.asString)

/-- os.path.join(a, b) on POSIX for two components: b if b is absolute,
a ++ b if a is empty or ends in the separator, a ++ sep ++ b otherwise. -/
def pyJoin (a b : String) : String :=
  match b.data with
  | '/' :: _ => b
  | _ =>
    if a = "" then a ++ b
    else
      match a.data.getLast? with
      | some '/' => a ++ b
      | _ => a ++ "/" ++ b

/-- Python `s.split('\n')` on the character list. -/
def splitNlL : List Char → List (List Char)
  | [] => [[]]
  | c :: cs =>
    if c = '\n' then [] :: splitNlL cs
    else
      match splitNlL cs with
      | l :: ls => (c :: l) :: ls
      | [] => [[c]]

/-- Python `s.split('\n')` on strings (medio.py line 98). -/
def splitNl (s : String) : List String := (splitNlL s.data).map List.asString

/-! ### Worker.rename_re (medio.py line 74)

The Worker matches each stdout line of exiftool against the Python regex
 "'(\S+)'\s+-->\s+'(\S+)'"  with re.match (anchored at the start of the
line, trailing text allowed).  Because every character a group may take is
non-whitespace while the character after the first closing quote must be
whitespace, the backtracking search is deterministic: group 1 is the
maximal non-whitespace run minus its final quote, and group 2 ends at the
last quote inside its maximal non-whitespace run (greedy).  The functions
below implement exactly that. -/

/-- Split a non-whitespace run at its last quote: for the group-2 part of
the pattern, the greedy `(\S+)` followed by a quote takes everything before
the last quote of the run (the run has no whitespace). Returns none when
the run has no quote. -/
def lastQuoteSplit (cs : List Char) : Option (List Char) :=
  match cs.reverse.dropWhile (fun c => c != '\'') with
  | '\'' :: g2rev => some g2rev.reverse
  | _ => none

/-- Worker.rename_re matching on a character list: returns the two captured
groups when the line matches the pattern from its start. -/
def renameMatchL (line : List Char) : Option (List Char × List Char) :=
  match line with
  | '\'' :: rest =>
    let run1 := rest.takeWhile (fun c => !pySpace c)
    let rest1 := rest.dropWhile (fun c => !pySpace c)
    match run1.getLast? with
    | some '\'' =>
      let g1 := run1.dropLast
      if g1.isEmpty then none
      else
        let ws1 := rest1.takeWhile pySpace
        let rest2 := rest1.dropWhile pySpace
        if ws1.isEmpty then none
        else
          match rest2 with
          | '-' :: '-' :: '>' :: rest3 =>
            let ws2 := rest3.takeWhile pySpace
            let rest4 := rest3.dropWhile pySpace
            if ws2.isEmpty then none
            else
              match rest4 with
              | '\'' :: rest5 =>
                match lastQuoteSplit (rest5.takeWhile (fun c => !pySpace c)) with
                | some g2 => if g2.isEmpty then none else some (g1, g2)
                | none => none
              | _ => none
          | _ => none
    | _ => none
  | _ => none

/-- Worker.rename_re.match on a stdout line, returning the two groups. -/
def renameMatch (line : String) : Option (String × String) :=
  (renameMatchL line.data).map (fun g => (g.1.asString, g.2.asString))

/-- The success-path output contract of the external rename program
(spec section 6): a line of the shape quote, source, quote, space, dash,
dash, greater-than, space, quote, destination, quote. -/
def contractLine (s d : String) : String :=
  ('\'' :: (s.data ++ '\'' :: ' ' :: '-' :: '-' :: '>' :: ' ' :: '\'' :: (d.data ++ [ '\'' ]))).asString

/-! ### Worker.process_file (medio.py lines 84-114) -/

/-- Result of the exiftool subprocess invocation (Spawn, lines 52-59). -/
structure ExifResult where
  retval : Int
  stdout : String
  stderr : String

/-- Observable steps taken by Worker.process_file, in order.  Each log
constructor records the arguments of the corresponding log() call at the
cited line; the source additionally pretty-prints the Moved log's two paths
relative to their common prefix, a display detail not modelled. -/
inductive Act where
  | logFail (path : String)              -- line 96, exiftool non-zero exit
  | logMoved (src dst : String)          -- line 103
  | logDupCheck (dst dup : String)       -- line 108
  | remove (p : String)                  -- line 110, os.remove(dstfile)
  | logRemoved (dst dup : String)        -- line 111
  | logNoRename                          -- line 114
deriving DecidableEq, Repr

/-- The duplicate-candidate path computed at lines 106-107:
dstfile.split('-')[0] + extension. -/
def dupfileOf (dstfile : String) : String :=
  beforeDash dstfile ++ (splitext dstfile).2

/-- The duplicate-elimination stage of Worker.process_file (lines 105-111),
applied to one captured destination.  The filesystem is modelled as a map
from path to optional byte content (none = file absent); filecmp.cmp with
shallow=False is content equality, and it raises (second component true)
when the just-renamed file is itself absent — the only exception point
this model tracks. -/
def dedupStep (cfg : Config) (fs : String → Option (List Nat)) (dstfile : String) :
    List Act × Bool :=
  if cfg.UI_DSTFMT = DEFAULT_DSTFMT ∧ pyTruthy cfg.UI_DELETE_DUPS = true ∧ hasDash dstfile = true then
    let dupfile := dupfileOf dstfile
    let checkLog := Act.logDupCheck dstfile dupfile
    match fs dupfile with
    | none => ([checkLog], false)
    | some dupContent =>
      match fs dstfile with
      | none => ([checkLog], true)
      | some dstContent =>
        if dstContent = dupContent then
          ([checkLog, Act.remove dstfile, Act.logRemoved dstfile dupfile], false)
        else ([checkLog], false)
  else ([], false)

/-- The per-line capture test of the stdout loop (lines 99-100): the line
must match rename_re and group 1 must equal srcfile; then group 2 is the
new destination. -/
def lineCapture (srcfile line : String) : Option String :=
  match renameMatch line with
  | some g => if g.1 = srcfile then some g.2 else none
  | none => none

/-- The stdout loop of Worker.process_file (lines 98-111): returns the
actions performed, whether an exception escaped mid-loop, and the final
value of the dstfile variable (the last captured destination). -/
def linesLoop (cfg : Config) (fs : String → Option (List Nat)) (srcfile : String) :
    List String → List Act × Bool × Option String
  | [] => ([], false, none)
  | l :: ls =>
    match lineCapture srcfile l with
    | some b =>
      let step := dedupStep cfg fs b
      if step.2 then (Act.logMoved srcfile b :: step.1, true, some b)
      else
        let rest := linesLoop cfg fs srcfile ls
        (Act.logMoved srcfile b :: step.1 ++ rest.1, rest.2.1,
          match rest.2.2 with
          | some d2 => some d2
          | none => some b)
    | none => linesLoop cfg fs srcfile ls

/-- Worker.process_file (lines 84-114): actions performed and whether an
unexpected exception escaped to Worker.run.  The exiftool invocation itself
is external; its result is a parameter. -/
def workerProcessFile (cfg : Config) (fs : String → Option (List Nat)) (path : String)
    (res : ExifResult) : List Act × Bool :=
  let srcfile := pyJoin SRCDIR path
  if res.retval ≠ 0 then ([Act.logFail path], false)
  else
    let loop := linesLoop cfg fs srcfile (splitNl res.stdout)
    if loop.2.1 then (loop.1, true)
    else
      (loop.1 ++ (match loop.2.2 with | none => [Act.logNoRename] | some _ => []), false)

/-! ### Worker.run / Watcher.run thread loop (medio.py lines 116-127, 167-178)

Both run methods are the same loop: while errorCount < 5, get an item from
the queue, process it, and on any exception increment errorCount and log.
The per-item body is abstracted to its outcome (normal return or an
unhandled exception); the queue is modelled as the finite list of outcomes
delivered, after which the thread would block on get(). -/

/-- Outcome of one loop iteration body (get + process + task_done). -/
inductive ItemRes where
  | ok
  | exn
deriving DecidableEq, Repr, BEq

/-- Outcome of a process_file call in the model: exn iff an exception
escaped it. -/
def itemOutcome (r : List Act × Bool) : ItemRes :=
  if r.2 then .exn else .ok

/-- The errorCount after one loop body: incremented exactly on an
exception (line 124 / 175). -/
def nextEc (ec : Nat) : ItemRes → Nat
  | .exn => ec + 1
  | .ok => ec

/-- The run loop from a given errorCount: returns the number of items
consumed, the final errorCount, and whether the loop exited (errorCount
reached 5). -/
def threadRunAux (ec : Nat) : List ItemRes → Nat × Nat × Bool
  | [] => (0, ec, decide (5 ≤ ec))
  | i :: rest =>
    if 5 ≤ ec then (0, ec, true)
    else ((threadRunAux (nextEc ec i) rest).1 + 1, (threadRunAux (nextEc ec i) rest).2)

/-- The run loop started with errorCount = 0 (line 117 / 168). -/
def threadRun (items : List ItemRes) : Nat × Nat × Bool := threadRunAux 0 items

/-- The exit log line (line 127 / 178), with the thread role spliced in:
Worker.run logs role "Worker", Watcher.run logs role "Watcher". -/
def exitMsg (role : String) : String := "Too many errors, " ++ role ++ " thread exiting"

/-- The log lines emitted after the loop: exactly the exit message when the
loop exited, nothing while it still blocks on the queue. -/
def threadExitLogs (role : String) (items : List ItemRes) : List String :=
  if (threadRun items).2.2 then [exitMsg role] else []

/-- Whether some window of 5 consecutive delivered items are all
exceptions; formalises the word consecutive in the spec sentence. -/
def hasConsecAux (k cur : Nat) : List ItemRes → Bool
  | [] => decide (k ≤ cur)
  | i :: rest =>
    if k ≤ cur then true
    else
      match i with
      | .exn => hasConsecAux k (cur + 1) rest
      | .ok => hasConsecAux k 0 rest

/-- Whether the delivered items contain k consecutive exceptions. -/
def hasConsecExn (k : Nat) (items : List ItemRes) : Bool := hasConsecAux k 0 items

/-! ### Watcher (medio.py lines 129-178)

The Watcher thread owns the Active Set dict self.active (path to last
activity timestamp), the single timer slot self.timer, and pushes stable
paths onto workq.  Dicts are modelled as association lists with unique
keys; pending timers are tracked as a list of (id, delay) pairs so that
the one-outstanding-timer invariant is expressible; self.timer holds the
id of the last timer created. -/

/-- The paths pushed to workq by the sweep loop at lines 148-151: those
whose last activity is more than 30 seconds before now.  These are also
the delete_keys list. -/
def sweepPushes (now : Int) (active : List (String × Int)) : List String :=
  (active.filter (fun e => decide (30 < now - e.2))).map Prod.fst

/-- The deletion loop at lines 152-153: remove from the dict every entry
whose key was collected in delete_keys. -/
def delKeys (ks : List String) (active : List (String × Int)) : List (String × Int) :=
  active.filter (fun e => decide (e.1 ∉ ks))

/-- Python dict assignment self.active[path] = now (line 164): replace the
value at an existing key, else append a new entry. -/
def setKey (p : String) (v : Int) : List (String × Int) → List (String × Int)
  | [] => [(p, v)]
  | e :: es => if e.1 = p then (p, v) :: es else e :: setKey p v es

/-- Dict lookup by key (first matching entry). -/
def getKey (p : String) : List (String × Int) → Option Int
  | [] => none
  | e :: es => if e.1 = p then some e.2 else getKey p es

/-- Cancel the timer held in the slot (lines 156-157): the pending timer
with that id, if any, will no longer fire. -/
def cancelSlot : Option Nat → List (Nat × Nat) → List (Nat × Nat)
  | none, pending => pending
  | some i, pending => pending.filter (fun t => decide (t.1 ≠ i))

/-- State of the Watcher: the Active Set, everything pushed to workq so
far, the timers currently scheduled and not yet fired or canceled (id and
delay), the id held by self.timer, and a fresh-id counter. -/
structure WatcherSt where
  active : List (String × Int)
  outq : List String
  pending : List (Nat × Nat)
  slot : Option Nat
  nextId : Nat
deriving Repr

/-- Initial Watcher state (class attributes active = empty dict,
timer = None, lines 134-135). -/
def watcherInit : WatcherSt := ⟨[], [], [], none, 0⟩

/-- Watcher.check_actives (lines 144-159): sweep the Active Set, push the
stable paths, and when entries remain, cancel the slot timer and schedule
one new 5-second timer. -/
def checkActives (now : Int) (s : WatcherSt) : WatcherSt :=
  let pushes := sweepPushes now s.active
  let act2 := delKeys pushes s.active
  if 0 < act2.length then
    let pend2 := cancelSlot s.slot s.pending
    { active := act2, outq := s.outq ++ pushes,
      pending := pend2 ++ [(s.nextId, 5)], slot := some s.nextId, nextId := s.nextId + 1 }
  else
    { s with active := act2, outq := s.outq ++ pushes }

/-- Watcher.process_file (lines 161-165): the size of an absent path reads
as 0 (the exists-and-stat-or-0 idiom); a zero size discards the path,
otherwise its timestamp is set to now and a sweep runs. -/
def watcherProcessFile (fsSize : String → Option Nat) (path : String) (now : Int)
    (s : WatcherSt) : WatcherSt :=
  let filesize := match fsSize path with | some n => n | none => 0
  if 0 < filesize then checkActives now { s with active := setKey path now s.active }
  else s

/-- Events interleaved at the Watcher: a dequeued watch-queue path (with
its on-disk size and the current time) handled by process_file, or the
firing of a scheduled timer, which runs check_actives.  A timer fires only
while still pending; each check_actives call runs atomically. -/
inductive WEv where
  | file (path : String) (size : Option Nat) (now : Int)
  | fire (i : Nat) (now : Int)

/-- One Watcher step. -/
def wstep (e : WEv) (s : WatcherSt) : WatcherSt :=
  match e with
  | .file p sz now => watcherProcessFile (fun q => if q = p then sz else none) p now s
  | .fire i now =>
    if s.pending.any (fun t => t.1 = i) then
      checkActives now { s with pending := s.pending.filter (fun t => decide (t.1 ≠ i)) }
    else s

/-- Watcher state after a sequence of events from the initial state. -/
def wrun (evs : List WEv) : WatcherSt := evs.foldl (fun s e => wstep e s) watcherInit

/-! ### EventHandler (medio.py lines 180-216) -/

/-- Module constant ACCEPTED_EXTENSIONS (lines 17-19). -/
def ACCEPTED_EXTENSIONS : List String :=
  [".jpg", ".jpeg", ".mpg", ".mp4", ".png",
   ".mov", ".thm", ".avi", ".raw", ".arw",
   ".heic", ".heif", ".nef", ".3gp"]

/-- Python str.lower on the extension (ASCII letters; the accepted list is
ASCII). -/
def strLower (s : String) : String := String.mk (s.data.map Char.toLower)

/-- EventHandler.is_relevant_file (lines 195-200). -/
def is_relevant_file (p : String) : Bool :=
  decide (strLower (splitext p).2 ∈ ACCEPTED_EXTENSIONS)

/-- The three pyinotify event kinds the handler processes. -/
inductive EvKind where
  | create
  | closeWrite
  | movedTo
deriving DecidableEq, Repr

/-- The two queues of the pipeline: watchq feeds the Watcher (debounce),
workq feeds the Worker pool (ready for processing). -/
inductive QueueId where
  | watchQ
  | workQ
deriving DecidableEq, Repr

/-- EventHandler routing (lines 202-216): which queue, if any, the event's
path is put on. -/
def routeEvent (k : EvKind) (path : String) : Option (QueueId × String) :=
  match k with
  | .create => if is_relevant_file path then some (.watchQ, path) else none
  | .closeWrite => if is_relevant_file path then some (.watchQ, path) else none
  | .movedTo => if is_relevant_file path then some (.workQ, path) else none

/-! ### Spec-side comparison definitions

The following definitions follow the wording of the specification, not the
source; they exist only to compare the spec's phrasing with what the code
computes. -/

/-- Modelled from the spec: the filename (basename) component of a
destination path, for the spec sentences that place the collision marker
in the destination filename. -/
def fileName (p : String) : String :=
  String.mk ((p.data.reverse.takeWhile (fun c => c != '/')).reverse)

/-- Modelled from the spec: the directory part left of the basename. -/
def dirPart (p : String) : String :=
  String.mk (p.data.take (p.data.length - (fileName p).data.length))

/-- Modelled from the spec: the primary candidate destination obtained by
stripping everything from the marker onward from the filename, preserving
the original extension (spec section 4.3 step 4). -/
def specPrimaryCandidate (dst : String) : String :=
  dirPart dst ++ beforeDash (fileName dst) ++ (splitext dst).2

/-- The empty filesystem: no file exists. -/
def fsNone : String → Option (List Nat) := fun _ => none

/-- A filesystem for the duplicate-elimination scenario: the just-renamed
file and the code's first-dash primary exist with identical content; the
filename-based primary of the spec wording does not. -/
def fsDup : String → Option (List Nat) := fun p =>
  if p = "/my-dir/a-1.jpg" ∨ p = "/my.jpg" then some [1] else none

/-- One-outstanding-timer invariant of the Watcher state: no pending timer,
or exactly one, scheduled with a 5-second delay and referenced by the
slot. -/
def WInv (s : WatcherSt) : Prop :=
  s.pending = [] ∨ ∃ i, s.pending = [(i, 5)] ∧ s.slot = some i

/-! ### List helper lemmas -/

theorem takeWhile_append_all {p : Char → Bool} {xs : List Char} (ys : List Char)
    (h : ∀ x ∈ xs, p x = true) : (xs ++ ys).takeWhile p = xs ++ ys.takeWhile p := by
  induction xs with
  | nil => simp
  | cons a l ih =>
    have ha : p a = true := h a (List.mem_cons_self a l)
    simp only [List.cons_append, List.takeWhile_cons_of_pos ha]
    rw [ih (fun x hx => h x (List.mem_cons_of_mem a hx))]

theorem dropWhile_append_all {p : Char → Bool} {xs : List Char} (ys : List Char)
    (h : ∀ x ∈ xs, p x = true) : (xs ++ ys).dropWhile p = ys.dropWhile p := by
  induction xs with
  | nil => simp
  | cons a l ih =>
    have ha : p a = true := h a (List.mem_cons_self a l)
    simp only [List.cons_append, List.dropWhile_cons_of_pos ha]
    exact ih (fun x hx => h x (List.mem_cons_of_mem a hx))

/-! ### The rename_re contract lemma -/

theorem renameMatchL_contract (s d : List Char) (hs : s ≠ []) (hd : d ≠ [])
    (hsw : ∀ c ∈ s, pySpace c = false) (hdw : ∀ c ∈ d, pySpace c = false) :
    renameMatchL ('\'' :: (s ++ '\'' :: ' ' :: '-' :: '-' :: '>' :: ' ' :: '\'' :: (d ++ [ '\'' ]))) =
      some (s, d) := by
  have hsw' : ∀ c ∈ s, (fun c => !pySpace c) c = true := by
    intro c hc
    simp [hsw c hc]
  have hdw' : ∀ c ∈ d, (fun c => !pySpace c) c = true := by
    intro c hc
    simp [hdw c hc]
  have hsE : s.isEmpty = false := by simp [List.isEmpty_iff, hs]
  have hdE : d.isEmpty = false := by simp [List.isEmpty_iff, hd]
  have hrun1 :
      (s ++ '\'' :: ' ' :: '-' :: '-' :: '>' :: ' ' :: '\'' :: (d ++ [ '\'' ])).takeWhile
        (fun c => !pySpace c) = s ++ [ '\'' ] := by
    rw [takeWhile_append_all _ hsw', List.takeWhile_cons_of_pos (by decide),
      List.takeWhile_cons_of_neg (by decide)]
  have hrest1 :
      (s ++ '\'' :: ' ' :: '-' :: '-' :: '>' :: ' ' :: '\'' :: (d ++ [ '\'' ])).dropWhile
        (fun c => !pySpace c) = ' ' :: '-' :: '-' :: '>' :: ' ' :: '\'' :: (d ++ [ '\'' ]) := by
    rw [dropWhile_append_all _ hsw', List.dropWhile_cons_of_pos (by decide),
      List.dropWhile_cons_of_neg (by decide)]
  have ht1 :
      (' ' :: '-' :: '-' :: '>' :: ' ' :: '\'' :: (d ++ [ '\'' ])).takeWhile pySpace = [' '] := by
    rw [List.takeWhile_cons_of_pos (by decide), List.takeWhile_cons_of_neg (by decide)]
  have ht2 :
      (' ' :: '-' :: '-' :: '>' :: ' ' :: '\'' :: (d ++ [ '\'' ])).dropWhile pySpace =
        '-' :: '-' :: '>' :: ' ' :: '\'' :: (d ++ [ '\'' ]) := by
    rw [List.dropWhile_cons_of_pos (by decide), List.dropWhile_cons_of_neg (by decide)]
  have ht3 : (' ' :: '\'' :: (d ++ [ '\'' ])).takeWhile pySpace = [' '] := by
    rw [List.takeWhile_cons_of_pos (by decide), List.takeWhile_cons_of_neg (by decide)]
  have ht4 : (' ' :: '\'' :: (d ++ [ '\'' ])).dropWhile pySpace = '\'' :: (d ++ [ '\'' ]) := by
    rw [List.dropWhile_cons_of_pos (by decide), List.dropWhile_cons_of_neg (by decide)]
  have hrun2 : (d ++ [ '\'' ]).takeWhile (fun c => !pySpace c) = d ++ [ '\'' ] := by
    rw [takeWhile_append_all _ hdw', List.takeWhile_cons_of_pos (by decide), List.takeWhile_nil]
  have hstop : ('\'' :: d.reverse).dropWhile (fun c => c != '\'') = '\'' :: d.reverse :=
    List.dropWhile_cons_of_neg (by decide)
  have hlqs : lastQuoteSplit (d ++ [ '\'' ]) = some d := by
    unfold lastQuoteSplit
    rw [List.reverse_append]
    simp only [List.reverse_cons, List.reverse_nil, List.nil_append, List.singleton_append,
      hstop, List.reverse_reverse]
  unfold renameMatchL
  simp only [hrun1, hrest1, List.getLast?_concat, List.dropLast_concat, hsE, ht1, ht2, ht3, ht4,
    hrun2, hlqs, hdE]
  simp

theorem contractLine_data (s d : String) :
    (contractLine s d).data =
      '\'' :: (s.data ++ '\'' :: ' ' :: '-' :: '-' :: '>' :: ' ' :: '\'' :: (d.data ++ [ '\'' ])) :=
  rfl

theorem lineCapture_contract (s d : String)
    (hs1 : s.data ≠ []) (hsw : ∀ c ∈ s.data, pySpace c = false)
    (hd1 : d.data ≠ []) (hdw : ∀ c ∈ d.data, pySpace c = false) :
    lineCapture s (contractLine s d) = some d := by
  unfold lineCapture renameMatch
  rw [contractLine_data, renameMatchL_contract s.data d.data hs1 hd1 hsw hdw]
  simp [List.asString]

theorem linesLoop_none (cfg : Config) (fs : String → Option (List Nat)) (srcfile : String)
    (L : List String) (h : ∀ l ∈ L, lineCapture srcfile l = none) :
    linesLoop cfg fs srcfile L = ([], false, none) := by
  induction L with
  | nil => rfl
  | cons a t ih =>
    have ha := h a (List.mem_cons_self a t)
    simp only [linesLoop, ha]
    exact ih (fun l hl => h l (List.mem_cons_of_mem a hl))

theorem linesLoop_mem (cfg : Config) (fs : String → Option (List Nat)) (srcfile : String)
    (L : List String) (l b : String) (hl : l ∈ L) (hc : lineCapture srcfile l = some b)
    (hok : (linesLoop cfg fs srcfile L).2.1 = false) :
    Act.logMoved srcfile b ∈ (linesLoop cfg fs srcfile L).1 := by
  induction L with
  | nil => cases hl
  | cons a t ih =>
    rcases List.mem_cons.mp hl with rfl | hlt
    · simp only [linesLoop, hc] at hok ⊢
      by_cases hr : (dedupStep cfg fs b).2 = true
      · simp [hr] at hok
      · simp only [Bool.not_eq_true] at hr
        simp [hr]
    · cases hca : lineCapture srcfile a with
      | none =>
        simp only [linesLoop, hca] at hok ⊢
        exact ih hlt hok
      | some b2 =>
        simp only [linesLoop, hca] at hok ⊢
        by_cases hr : (dedupStep cfg fs b2).2 = true
        · simp [hr] at hok
        · simp only [Bool.not_eq_true] at hr
          simp only [hr, if_false, Bool.false_eq_true] at hok ⊢
          have := ih hlt hok
          simp [this]

/-! ### Shape of the splitext extension and distinctness of the primary -/

theorem splitextL_ext_shape (p : List Char) :
    (splitextL p).2 = [] ∨ ∃ e, (splitextL p).2 = '.' :: e := by
  unfold splitextL
  split
  · split
    · left
      rfl
    · right
      exact ⟨_, rfl⟩
  · left
    rfl

theorem dropWhile_dash_head {l : List Char} (h : '-' ∈ l) :
    ∃ r, l.dropWhile (fun c => c != '-') = '-' :: r := by
  induction l with
  | nil => cases h
  | cons a t ih =>
    by_cases ha : a = '-'
    · subst ha
      exact ⟨t, by rw [List.dropWhile_cons_of_neg (by simp)]⟩
    · rcases List.mem_cons.mp h with h1 | h2
      · exact absurd h1.symm ha
      · rcases ih h2 with ⟨r, hr⟩
        refine ⟨r, ?_⟩
        rw [List.dropWhile_cons_of_pos (by simp [ha]), hr]

theorem dupfileOf_ne (dst : String) (h : hasDash dst = true) : dupfileOf dst ≠ dst := by
  have hmem : '-' ∈ dst.data := of_decide_eq_true h
  rcases dropWhile_dash_head hmem with ⟨r, hr⟩
  have hsplit : dst.data.takeWhile (fun c => c != '-') ++ '-' :: r = dst.data := by
    rw [← hr]
    exact List.takeWhile_append_dropWhile _ _
  intro heq
  have hdata : (dupfileOf dst).data = dst.data := congrArg String.data heq
  have hd2 : dst.data.takeWhile (fun c => c != '-') ++ (splitextL dst.data).2 = dst.data := by
    simpa [dupfileOf, beforeDash, splitext, List.asString] using hdata
  have hext : (splitextL dst.data).2 = '-' :: r := by
    have := hd2.trans hsplit.symm
    exact List.append_cancel_left this
  rcases splitextL_ext_shape dst.data with he | ⟨e, he⟩
  · rw [he] at hext
    cases hext
  · rw [he] at hext
    cases hext

/-! ### Thread loop lemmas -/

theorem exn_beq_exn : (ItemRes.exn == ItemRes.exn) = true := rfl

theorem ok_beq_exn : (ItemRes.ok == ItemRes.exn) = false := rfl

theorem threadRunAux_spec (items : List ItemRes) : ∀ ec : Nat, ec ≤ 5 →
    ((threadRunAux ec items).2.2 = true ↔ 5 ≤ ec + items.count .exn) ∧
    ((threadRunAux ec items).2.2 = false → (threadRunAux ec items).1 = items.length) ∧
    ((threadRunAux ec items).2.1 =
      ec + (items.take (threadRunAux ec items).1).count .exn) ∧
    ((threadRunAux ec items).2.2 = true → (threadRunAux ec items).2.1 = 5) := by
  induction items with
  | nil =>
    intro ec hec
    refine ⟨?_, ?_, ?_, ?_⟩
    · simp [threadRunAux]
    · simp [threadRunAux]
    · simp [threadRunAux]
    · simp only [threadRunAux]
      intro h
      have := of_decide_eq_true h
      omega
  | cons i rest ih =>
    intro ec hec
    by_cases h5 : 5 ≤ ec
    · have hec5 : ec = 5 := le_antisymm hec h5
      refine ⟨?_, ?_, ?_, ?_⟩
      · simp only [threadRunAux, if_pos h5]
        constructor
        · intro _
          omega
        · intro _
          trivial
      · simp [threadRunAux, h5]
      · simp [threadRunAux, h5]
      · simp only [threadRunAux, if_pos h5]
        intro _
        exact hec5
    · have hlt : ec < 5 := Nat.lt_of_not_le h5
      have hec2 : nextEc ec i ≤ 5 := by
        cases i <;> simp [nextEc] <;> omega
      have hr := ih (nextEc ec i) hec2
      have hcount : ec + (i :: rest).count ItemRes.exn = nextEc ec i + rest.count ItemRes.exn := by
        cases i <;> simp [nextEc, List.count_cons, exn_beq_exn, ok_beq_exn] <;> omega
      refine ⟨?_, ?_, ?_, ?_⟩
      · simp only [threadRunAux, if_neg h5]
        rw [hr.1, hcount]
      · intro hx
        simp only [threadRunAux, if_neg h5] at hx ⊢
        rw [hr.2.1 hx, List.length_cons]
      · simp only [threadRunAux, if_neg h5, List.take_succ_cons, List.count_cons]
        rw [hr.2.2.1]
        cases i <;> simp [nextEc, exn_beq_exn, ok_beq_exn] <;> omega
      · intro hx
        simp only [threadRunAux, if_neg h5] at hx ⊢
        exact hr.2.2.2 hx

/-! ### Watcher dict and sweep lemmas -/

theorem keyUnique {active : List (String × Int)} (hnd : (active.map Prod.fst).Nodup)
    {p : String} {t t2 : Int} (h1 : (p, t) ∈ active) (h2 : (p, t2) ∈ active) : t = t2 := by
  induction active with
  | nil => cases h1
  | cons e es ih =>
    have hnd2 : (es.map Prod.fst).Nodup := (List.nodup_cons.mp hnd).2
    have hne : e.1 ∉ es.map Prod.fst := (List.nodup_cons.mp hnd).1
    rcases List.mem_cons.mp h1 with rfl | h1t
    · rcases List.mem_cons.mp h2 with he | h2t
      · injection he with hfst hsnd
        exact hsnd.symm
      · exact absurd (List.mem_map.mpr ⟨(p, t2), h2t, rfl⟩) hne
    · rcases List.mem_cons.mp h2 with he | h2t
      · rw [← he] at hne
        exact absurd (List.mem_map.mpr ⟨(p, t), h1t, rfl⟩) hne
      · exact ih hnd2 h1t h2t

theorem mem_sweepPushes {now : Int} {active : List (String × Int)} {p : String} :
    p ∈ sweepPushes now active ↔ ∃ t, (p, t) ∈ active ∧ 30 < now - t := by
  unfold sweepPushes
  constructor
  · intro h
    rcases List.mem_map.mp h with ⟨e, he, rfl⟩
    rcases List.mem_filter.mp he with ⟨hmem, hcond⟩
    exact ⟨e.2, hmem, of_decide_eq_true hcond⟩
  · rintro ⟨t, hmem, hcond⟩
    exact List.mem_map.mpr ⟨(p, t), List.mem_filter.mpr ⟨hmem, decide_eq_true hcond⟩, rfl⟩

theorem sweepPushes_nodup {now : Int} {active : List (String × Int)}
    (hnd : (active.map Prod.fst).Nodup) : (sweepPushes now active).Nodup := by
  unfold sweepPushes
  exact hnd.sublist (List.Sublist.map Prod.fst (List.filter_sublist active))

theorem mem_delKeys {ks : List String} {active : List (String × Int)} {p : String} {t : Int} :
    (p, t) ∈ delKeys ks active ↔ (p, t) ∈ active ∧ p ∉ ks := by
  unfold delKeys
  constructor
  · intro h
    rcases List.mem_filter.mp h with ⟨hmem, hcond⟩
    exact ⟨hmem, of_decide_eq_true hcond⟩
  · rintro ⟨hmem, hcond⟩
    exact List.mem_filter.mpr ⟨hmem, decide_eq_true hcond⟩

theorem mem_setKey_self (p : String) (v : Int) (l : List (String × Int)) :
    (p, v) ∈ setKey p v l := by
  induction l with
  | nil => exact List.mem_singleton.mpr rfl
  | cons e es ih =>
    by_cases he : e.1 = p
    · simp [setKey, he]
    · simp only [setKey, if_neg he]
      exact List.mem_cons_of_mem e ih

theorem map_fst_setKey (p : String) (v : Int) (l : List (String × Int)) :
    (setKey p v l).map Prod.fst =
      (if p ∈ l.map Prod.fst then l.map Prod.fst else l.map Prod.fst ++ [p]) := by
  induction l with
  | nil => simp [setKey]
  | cons e es ih =>
    by_cases he : e.1 = p
    · simp [setKey, he]
    · have hne : ¬ p = e.1 := fun h => he h.symm
      simp only [setKey, if_neg he, List.map_cons, ih, List.mem_cons]
      by_cases hp : p ∈ es.map Prod.fst
      · simp [hp, hne]
      · simp [hp, hne]

theorem setKey_nodup {l : List (String × Int)} (hnd : (l.map Prod.fst).Nodup)
    (p : String) (v : Int) : ((setKey p v l).map Prod.fst).Nodup := by
  rw [map_fst_setKey]
  by_cases hp : p ∈ l.map Prod.fst
  · simpa [hp] using hnd
  · simp only [if_neg hp]
    simpa [List.nodup_append, hp] using hnd

theorem mem_setKey (p : String) (v : Int) (l : List (String × Int)) (e : String × Int)
    (he : e ∈ setKey p v l) : e = (p, v) ∨ e ∈ l := by
  induction l with
  | nil => simpa [setKey] using he
  | cons f fs ih =>
    by_cases hf : f.1 = p
    · simp only [setKey, if_pos hf] at he
      rcases List.mem_cons.mp he with rfl | h2
      · exact Or.inl rfl
      · exact Or.inr (List.mem_cons_of_mem f h2)
    · simp only [setKey, if_neg hf] at he
      rcases List.mem_cons.mp he with rfl | h2
      · exact Or.inr (List.mem_cons_self _ _)
      · rcases ih h2 with h3 | h3
        · exact Or.inl h3
        · exact Or.inr (List.mem_cons_of_mem f h3)

theorem delKeys_cons (ks : List String) (e : String × Int) (es : List (String × Int)) :
    delKeys ks (e :: es) = if e.1 ∉ ks then e :: delKeys ks es else delKeys ks es := by
  by_cases h : e.1 ∉ ks
  · simp [delKeys, List.filter_cons, h]
  · simp [delKeys, List.filter_cons, h]

theorem getKey_delKeys {l : List (String × Int)} {ks : List String} {p : String} {v : Int}
    (hget : getKey p l = some v) (hk : p ∉ ks) : getKey p (delKeys ks l) = some v := by
  induction l with
  | nil => cases hget
  | cons e es ih =>
    rw [delKeys_cons]
    by_cases he : e.1 = p
    · simp only [getKey, if_pos he] at hget
      have hkeep : e.1 ∉ ks := by
        rw [he]
        exact hk
      rw [if_pos hkeep]
      simp [getKey, he, hget]
    · simp only [getKey, if_neg he] at hget
      by_cases hke : e.1 ∉ ks
      · rw [if_pos hke]
        simp only [getKey, if_neg he]
        exact ih hget
      · rw [if_neg hke]
        exact ih hget

theorem getKey_setKey_self (p : String) (v : Int) (l : List (String × Int)) :
    getKey p (setKey p v l) = some v := by
  induction l with
  | nil => simp [setKey, getKey]
  | cons e es ih =>
    by_cases he : e.1 = p
    · simp [setKey, getKey, he]
    · simp only [setKey, if_neg he]
      simp [getKey, he, ih]

/-! ### The one-outstanding-timer invariant -/

theorem winv_checkActives (now : Int) (s : WatcherSt) (h : WInv s) :
    WInv (checkActives now s) := by
  unfold checkActives
  by_cases hact : 0 < (delKeys (sweepPushes now s.active) s.active).length
  · rw [if_pos hact]
    have hcancel : cancelSlot s.slot s.pending = [] := by
      rcases h with h0 | ⟨i, hp, hs⟩
      · cases hslot : s.slot
        · simp [cancelSlot, h0]
        · simp [cancelSlot, h0]
      · rw [hp, hs]
        simp [cancelSlot]
    right
    exact ⟨s.nextId, by simp [hcancel], rfl⟩
  · rw [if_neg hact]
    exact h

theorem winv_wstep (e : WEv) (s : WatcherSt) (h : WInv s) : WInv (wstep e s) := by
  cases e with
  | file p sz now =>
    simp only [wstep, watcherProcessFile, eq_self_iff_true, if_true]
    by_cases hsz : 0 < (match sz with | some n => n | none => 0)
    · rw [if_pos hsz]
      exact winv_checkActives now _ h
    · rw [if_neg hsz]
      exact h
  | fire i now =>
    simp only [wstep]
    by_cases hmem : s.pending.any (fun t => decide (t.1 = i)) = true
    · rw [if_pos hmem]
      refine winv_checkActives now _ ?_
      rcases h with h0 | ⟨j, hp, hs⟩
      · left
        simp [h0]
      · by_cases hji : j = i
        · left
          rw [hp]
          simp [hji]
        · right
          refine ⟨j, ?_, hs⟩
          rw [hp]
          simp [hji]
    · rw [if_neg hmem]
      exact h

theorem winv_foldl (evs : List WEv) : ∀ s : WatcherSt, WInv s →
    WInv (evs.foldl (fun s e => wstep e s) s) := by
  induction evs with
  | nil =>
    intro s h
    exact h
  | cons e t ih =>
    intro s h
    exact ih _ (winv_wstep e s h)

theorem winv_wrun (evs : List WEv) : WInv (wrun evs) :=
  winv_foldl evs watcherInit (Or.inl rfl)

/-! ### Claim theorems -/

/-- C1 (amended): the Executor applies the duplicate-elimination stage to a
just-renamed destination if and only if the active destination-format
equals the default template, duplicate-deletion is truthy in the
configuration, and the destination path string contains the marker
character (medio.py line 105 tests the whole path string, not only the
filename); when any conjunct fails, no duplicate check and no deletion
happens, whatever the filesystem contents. -/
theorem C1_dedup_condition (cfg : Config) (fs : String → Option (List Nat)) (dstfile : String) :
    ((dedupStep cfg fs dstfile).1 ≠ [] ↔
      cfg.UI_DSTFMT = DEFAULT_DSTFMT ∧ pyTruthy cfg.UI_DELETE_DUPS = true ∧
        hasDash dstfile = true) ∧
    (∀ p, Act.remove p ∈ (dedupStep cfg fs dstfile).1 →
      cfg.UI_DSTFMT = DEFAULT_DSTFMT ∧ pyTruthy cfg.UI_DELETE_DUPS = true ∧
        hasDash dstfile = true) := by
  by_cases hcond : cfg.UI_DSTFMT = DEFAULT_DSTFMT ∧ pyTruthy cfg.UI_DELETE_DUPS = true ∧
      hasDash dstfile = true
  · simp only [dedupStep, if_pos hcond]
    refine ⟨⟨fun _ => hcond, fun _ => ?_⟩, fun p _ => hcond⟩
    rcases hfd : fs (dupfileOf dstfile) with _ | dc
    · simp
    · rcases hfs : fs dstfile with _ | sc
      · simp
      · by_cases he : sc = dc
        · simp [he]
        · simp [he]
  · simp only [dedupStep, if_neg hcond]
    refine ⟨⟨fun hne => absurd rfl hne, fun hc => absurd hc hcond⟩, ?_⟩
    intro p hp
    exact absurd hp (List.not_mem_nil _)

/-- C1 counterexample: with the default format and duplicate-deletion
enabled, a destination whose directory part carries the dash while the
filename carries none still gets the duplicate check (the Check log and
primary candidate are computed), contradicting the claim's condition that
the destination filename must contain the marker. -/
theorem C1_counterexample :
    Act.logDupCheck "/de-st/x.jpg" "/de.jpg" ∈
      (dedupStep ⟨DEFAULT_DSTFMT, PyVal.str "1"⟩ fsNone "/de-st/x.jpg").1 ∧
    hasDash (fileName "/de-st/x.jpg") = false := by
  decide

/-- C1 witness: the amended condition instantiated at a concrete marked
destination under the default configuration. -/
theorem C1_witness :
    (dedupStep ⟨DEFAULT_DSTFMT, PyVal.bool true⟩ fsNone "/dest/2024/a-1.jpg").1 ≠ [] := by
  have h := C1_dedup_condition ⟨DEFAULT_DSTFMT, PyVal.bool true⟩ fsNone "/dest/2024/a-1.jpg"
  exact h.1.mpr (by decide)

/-- C4 (amended): when duplicate elimination applies (default format,
deletion truthy, dash present) and the just-renamed file exists with
content c, the primary candidate is everything of the full destination
path before the first dash with the extension appended (dupfileOf); the
just-renamed file is deleted, and the removal logged, if and only if that
primary exists with byte-identical content; only the just-renamed file is
ever removed and the primary never is; no exception escapes. -/
theorem C4_primary_dedup (cfg : Config) (fs : String → Option (List Nat)) (dstfile : String)
    (c : List Nat)
    (hfmt : cfg.UI_DSTFMT = DEFAULT_DSTFMT) (hdel : pyTruthy cfg.UI_DELETE_DUPS = true)
    (hdash : hasDash dstfile = true) (hc : fs dstfile = some c) :
    (Act.remove dstfile ∈ (dedupStep cfg fs dstfile).1 ↔ fs (dupfileOf dstfile) = some c) ∧
    (Act.logRemoved dstfile (dupfileOf dstfile) ∈ (dedupStep cfg fs dstfile).1 ↔
      fs (dupfileOf dstfile) = some c) ∧
    (∀ p, Act.remove p ∈ (dedupStep cfg fs dstfile).1 → p = dstfile) ∧
    Act.remove (dupfileOf dstfile) ∉ (dedupStep cfg fs dstfile).1 ∧
    (dedupStep cfg fs dstfile).2 = false := by
  have hne : dupfileOf dstfile ≠ dstfile := dupfileOf_ne dstfile hdash
  have hcond : cfg.UI_DSTFMT = DEFAULT_DSTFMT ∧ pyTruthy cfg.UI_DELETE_DUPS = true ∧
      hasDash dstfile = true := ⟨hfmt, hdel, hdash⟩
  simp only [dedupStep, if_pos hcond]
  rcases hfd : fs (dupfileOf dstfile) with _ | dc
  · refine ⟨?_, ?_, ?_, ?_, ?_⟩
    · simp [hc]
    · simp
    · intro p hp
      simp at hp
    · simp
    · rfl
  · rw [hc]
    by_cases he : c = dc
    · subst he
      refine ⟨?_, ?_, ?_, ?_, ?_⟩
      · simp
      · simp
      · intro p hp
        simp at hp
        first
        | exact hp
        | exact hp.symm
      · simp [hne]
      · simp
    · have hne3 : ¬ dc = c := fun hx => he hx.symm
      refine ⟨?_, ?_, ?_, ?_, ?_⟩
      · simp [he, hne3]
      · simp [he, hne3]
      · intro p hp
        simp [he] at hp
      · simp [he]
      · simp [he]

/-- C4 counterexample: the destination /my-dir/a-1.jpg has its marker in
the filename, yet the code computes the primary from the full path's first
dash, giving /my.jpg; with /my.jpg byte-identical and the spec's
filename-derived primary /my-dir/a.jpg absent, the code deletes the
just-renamed file although the claim says no deletion occurs when the
primary candidate is absent. -/
theorem C4_counterexample :
    Act.remove "/my-dir/a-1.jpg" ∈
      (dedupStep ⟨DEFAULT_DSTFMT, PyVal.str "1"⟩ fsDup "/my-dir/a-1.jpg").1 ∧
    fsDup (specPrimaryCandidate "/my-dir/a-1.jpg") = none := by
  decide

/-- C4 witness: the amended statement instantiated at a marked destination
with an existing byte-identical primary. -/
theorem C4_witness :
    Act.remove "/my-dir/a-1.jpg" ∈
      (dedupStep ⟨DEFAULT_DSTFMT, PyVal.bool true⟩ fsDup "/my-dir/a-1.jpg").1 := by
  have h := C4_primary_dedup ⟨DEFAULT_DSTFMT, PyVal.bool true⟩ fsDup "/my-dir/a-1.jpg" [1]
    rfl rfl (by decide) (by decide)
  exact h.1.mpr (by decide)

/-- C2 (amended): a Worker or Watcher thread stops consuming its queue
permanently exactly when 5 cumulative unhandled exceptions have occurred
(medio.py lines 116-127, 167-178); the counter is never reset by a
successfully processed item, so failures separated by successes still
accumulate; on exit the thread logs "Too many errors, <role> thread
exiting", and exactly 5 of the consumed items were exceptions. -/
theorem C2_cumulative_errors (role : String) (items : List ItemRes) :
    ((threadRun items).2.2 = true ↔ 5 ≤ items.count ItemRes.exn) ∧
    (threadExitLogs role items = [exitMsg role] ↔ 5 ≤ items.count ItemRes.exn) ∧
    ((threadRun items).2.2 = false → (threadRun items).1 = items.length) ∧
    ((threadRun items).2.2 = true → (items.take (threadRun items).1).count ItemRes.exn = 5) := by
  have h := threadRunAux_spec items 0 (Nat.zero_le 5)
  have h1 : (threadRun items).2.2 = true ↔ 5 ≤ items.count ItemRes.exn := by
    rw [threadRun, h.1, Nat.zero_add]
  refine ⟨h1, ?_, ?_, ?_⟩
  · unfold threadExitLogs
    by_cases hx : (threadRun items).2.2 = true
    · rw [if_pos hx]
      exact iff_of_true rfl (h1.mp hx)
    · rw [if_neg hx]
      refine iff_of_false (fun hc => List.cons_ne_nil _ _ hc.symm) (fun hc => hx (h1.mpr hc))
  · exact h.2.1
  · intro hx
    have h4 := h.2.2.2 hx
    have h3 := h.2.2.1
    rw [h4] at h3
    show (items.take (threadRunAux 0 items).1).count ItemRes.exn = 5
    omega

/-- C2 counterexample: after the items exception, success, exception,
exception, exception, exception the thread exits and stops consuming (the
seventh, successful item is never consumed), although no 5 consecutive
exceptions occurred; the claim's consecutiveness therefore fails on the
code, whose errorCount is never reset. -/
theorem C2_counterexample :
    (threadRun [ItemRes.exn, ItemRes.ok, ItemRes.exn, ItemRes.exn, ItemRes.exn, ItemRes.exn,
      ItemRes.ok]).2.2 = true ∧
    (threadRun [ItemRes.exn, ItemRes.ok, ItemRes.exn, ItemRes.exn, ItemRes.exn, ItemRes.exn,
      ItemRes.ok]).1 = 6 ∧
    hasConsecExn 5 [ItemRes.exn, ItemRes.ok, ItemRes.exn, ItemRes.exn, ItemRes.exn, ItemRes.exn,
      ItemRes.ok] = false := by
  decide

/-- C2 witness: the amended statement instantiated at five straight
exceptions: the thread exits and logs the Worker exit line. -/
theorem C2_witness :
    (threadRun [ItemRes.exn, ItemRes.exn, ItemRes.exn, ItemRes.exn, ItemRes.exn]).2.2 = true ∧
    threadExitLogs "Worker" [ItemRes.exn, ItemRes.exn, ItemRes.exn, ItemRes.exn, ItemRes.exn] =
      [exitMsg "Worker"] := by
  have h := C2_cumulative_errors "Worker"
    [ItemRes.exn, ItemRes.exn, ItemRes.exn, ItemRes.exn, ItemRes.exn]
  exact ⟨h.1.mpr (by decide), h.2.1.mpr (by decide)⟩

/-- C3 (amended): for every exiftool invocation that exits 0 and whose
stdout contains a contract-shaped line for the invoked source path, the
Worker captures that destination and logs the move, provided source and
destination consist of non-whitespace characters (the regex at medio.py
line 74 uses non-whitespace groups) and the item's processing completes
without an unhandled exception. -/
theorem C3_contract_capture (cfg : Config) (fs : String → Option (List Nat)) (path : String)
    (res : ExifResult) (s d : String)
    (h0 : res.retval = 0) (hs : pyJoin SRCDIR path = s)
    (hs1 : s.data ≠ []) (hsw : ∀ c ∈ s.data, pySpace c = false)
    (hd1 : d.data ≠ []) (hdw : ∀ c ∈ d.data, pySpace c = false)
    (hline : contractLine s d ∈ splitNl res.stdout)
    (hok : (workerProcessFile cfg fs path res).2 = false) :
    Act.logMoved s d ∈ (workerProcessFile cfg fs path res).1 := by
  have hcap : lineCapture s (contractLine s d) = some d :=
    lineCapture_contract s d hs1 hsw hd1 hdw
  have hzero : ¬ ((0 : Int) ≠ 0) := fun hh => hh rfl
  simp only [workerProcessFile, h0, if_neg hzero, hs] at hok ⊢
  by_cases hl : (linesLoop cfg fs s (splitNl res.stdout)).2.1 = true
  · rw [if_pos hl] at hok
    cases hok
  · have hl2 : (linesLoop cfg fs s (splitNl res.stdout)).2.1 = false := by
      revert hl
      cases (linesLoop cfg fs s (splitNl res.stdout)).2.1
      · intro _
        rfl
      · intro hx
        exact absurd rfl hx
    rw [if_neg hl]
    exact List.mem_append.mpr (Or.inl
      (linesLoop_mem cfg fs s (splitNl res.stdout) (contractLine s d) d hline hcap hl2))

/-- C3 counterexample: exiftool exits 0 and its stdout is exactly the
contract line for the invoked source path /source/a b.jpg, which contains
a space; the regex with non-whitespace groups does not match, so the move
is never captured or logged, contradicting the claim's coverage of paths
containing whitespace. -/
theorem C3_counterexample :
    contractLine "/source/a b.jpg" "/dest/x.jpg" ∈
      splitNl (ExifResult.mk 0 (contractLine "/source/a b.jpg" "/dest/x.jpg") "").stdout ∧
    pyJoin SRCDIR "a b.jpg" = "/source/a b.jpg" ∧
    Act.logMoved "/source/a b.jpg" "/dest/x.jpg" ∉
      (workerProcessFile ⟨DEFAULT_DSTFMT, PyVal.bool true⟩ fsNone "a b.jpg"
        (ExifResult.mk 0 (contractLine "/source/a b.jpg" "/dest/x.jpg") "")).1 := by
  decide

/-- C3 witness: the amended statement instantiated at whitespace-free
paths: the contract line leads to a captured and logged move. -/
theorem C3_witness :
    Act.logMoved "/source/x.jpg" "/dest/y.jpg" ∈
      (workerProcessFile ⟨DEFAULT_DSTFMT, PyVal.bool true⟩ fsNone "x.jpg"
        (ExifResult.mk 0 (contractLine "/source/x.jpg" "/dest/y.jpg") "")).1 :=
  C3_contract_capture ⟨DEFAULT_DSTFMT, PyVal.bool true⟩ fsNone "x.jpg"
    (ExifResult.mk 0 (contractLine "/source/x.jpg" "/dest/y.jpg") "")
    "/source/x.jpg" "/dest/y.jpg" rfl (by decide) (by decide) (by decide) (by decide)
    (by decide) (by decide) (by decide)

/-- C7: a transient per-item failure, namely exiftool exiting non-zero or
exiting zero with no parseable rename line for the source, is logged and
the item abandoned with a normal return, so the item's outcome never
increments the thread's error counter, which counts exactly the exception
outcomes among the consumed items. -/
theorem C7_transient_failures :
    (∀ (cfg : Config) (fs : String → Option (List Nat)) (path : String) (res : ExifResult),
      (res.retval ≠ 0 →
        workerProcessFile cfg fs path res = ([Act.logFail path], false) ∧
        itemOutcome (workerProcessFile cfg fs path res) = ItemRes.ok) ∧
      (res.retval = 0 →
        (∀ l ∈ splitNl res.stdout, lineCapture (pyJoin SRCDIR path) l = none) →
        workerProcessFile cfg fs path res = ([Act.logNoRename], false) ∧
        itemOutcome (workerProcessFile cfg fs path res) = ItemRes.ok)) ∧
    (∀ items : List ItemRes,
      (threadRun items).2.1 = (items.take (threadRun items).1).count ItemRes.exn) := by
  constructor
  · intro cfg fs path res
    constructor
    · intro hr
      have heq : workerProcessFile cfg fs path res = ([Act.logFail path], false) := by
        simp [workerProcessFile, hr]
      exact ⟨heq, by rw [heq]; rfl⟩
    · intro h0 hnone
      have hloop := linesLoop_none cfg fs (pyJoin SRCDIR path) (splitNl res.stdout) hnone
      have heq : workerProcessFile cfg fs path res = ([Act.logNoRename], false) := by
        simp [workerProcessFile, h0, hloop]
      exact ⟨heq, by rw [heq]; rfl⟩
  · intro items
    have h := threadRunAux_spec items 0 (Nat.zero_le 5)
    have h3 := h.2.2.1
    rw [Nat.zero_add] at h3
    exact h3

/-- C7 witness: both transient failure shapes at concrete inputs, and the
error counter equation on a concrete consumed sequence. -/
theorem C7_witness :
    workerProcessFile ⟨DEFAULT_DSTFMT, PyVal.bool true⟩ fsNone "a.jpg"
      (ExifResult.mk 1 "" "boom") = ([Act.logFail "a.jpg"], false) ∧
    workerProcessFile ⟨DEFAULT_DSTFMT, PyVal.bool true⟩ fsNone "a.jpg"
      (ExifResult.mk 0 "junk" "") = ([Act.logNoRename], false) ∧
    (threadRun [ItemRes.ok, ItemRes.exn, ItemRes.ok]).2.1 =
      (([ItemRes.ok, ItemRes.exn, ItemRes.ok].take
        (threadRun [ItemRes.ok, ItemRes.exn, ItemRes.ok]).1).count ItemRes.exn) := by
  have h := C7_transient_failures
  refine ⟨((h.1 ⟨DEFAULT_DSTFMT, PyVal.bool true⟩ fsNone "a.jpg"
      (ExifResult.mk 1 "" "boom")).1 (by decide)).1,
    ((h.1 ⟨DEFAULT_DSTFMT, PyVal.bool true⟩ fsNone "a.jpg"
      (ExifResult.mk 0 "junk" "")).2 rfl (by decide)).1,
    h.2 [ItemRes.ok, ItemRes.exn, ItemRes.ok]⟩

/-- C5: a stability sweep pushes to the work queue exactly the paths whose
elapsed time since their recorded activity exceeds the 30-unit quiet
period, each exactly once, and the swept Active Set keeps exactly the
other entries with their timestamps unchanged (medio.py lines 144-153). -/
theorem C5_sweep (now : Int) (active : List (String × Int))
    (hnd : (active.map Prod.fst).Nodup) :
    (∀ p t, (p, t) ∈ active → (p ∈ sweepPushes now active ↔ 30 < now - t)) ∧
    (∀ p, (sweepPushes now active).count p ≤ 1) ∧
    (∀ p t, (p, t) ∈ delKeys (sweepPushes now active) active ↔
      ((p, t) ∈ active ∧ ¬ 30 < now - t)) := by
  have hmemiff : ∀ p t, (p, t) ∈ active → (p ∈ sweepPushes now active ↔ 30 < now - t) := by
    intro p t hmem
    constructor
    · intro hp
      rcases mem_sweepPushes.mp hp with ⟨t2, hmem2, hc2⟩
      have ht : t = t2 := keyUnique hnd hmem hmem2
      rw [ht]
      exact hc2
    · intro hc
      exact mem_sweepPushes.mpr ⟨t, hmem, hc⟩
  refine ⟨hmemiff, ?_, ?_⟩
  · intro p
    exact List.nodup_iff_count_le_one.mp (sweepPushes_nodup hnd) p
  · intro p t
    constructor
    · intro h
      rcases mem_delKeys.mp h with ⟨hmem, hnin⟩
      exact ⟨hmem, fun hc => hnin ((hmemiff p t hmem).mpr hc)⟩
    · rintro ⟨hmem, hc⟩
      exact mem_delKeys.mpr ⟨hmem, fun hp => hc ((hmemiff p t hmem).mp hp)⟩

/-- C5 witness: at time 40, the entry aged 40 units is pushed and the entry
aged 20 units stays with its timestamp. -/
theorem C5_witness :
    "a" ∈ sweepPushes 40 [("a", 0), ("b", 20)] ∧
    ("b", 20) ∈ delKeys (sweepPushes 40 [("a", 0), ("b", 20)]) [("a", 0), ("b", 20)] := by
  have h := C5_sweep 40 [("a", 0), ("b", 20)] (by decide)
  exact ⟨(h.1 "a" 0 (by decide)).mpr (by decide), (h.2.2 "b" 20).mpr (by decide)⟩

/-- C6: in every state reachable by interleaving process_file calls and
timer firings, at most one re-check timer is pending; after a sweep, when
entries remain a single new 5-unit timer is scheduled after the slot timer
is canceled (and the canceled one is no longer pending); when the Active
Set empties, no new timer is scheduled (medio.py lines 154-159). -/
theorem C6_single_timer :
    (∀ evs : List WEv, (wrun evs).pending.length ≤ 1) ∧
    (∀ (now : Int) (s : WatcherSt),
      (delKeys (sweepPushes now s.active) s.active = [] →
        (checkActives now s).pending = s.pending) ∧
      (delKeys (sweepPushes now s.active) s.active ≠ [] →
        (checkActives now s).pending = cancelSlot s.slot s.pending ++ [(s.nextId, 5)] ∧
        (checkActives now s).slot = some s.nextId ∧
        ∀ i d, s.slot = some i → (i, d) ∉ cancelSlot s.slot s.pending)) := by
  constructor
  · intro evs
    rcases winv_wrun evs with h0 | ⟨i, hp, _⟩
    · rw [h0]
      exact Nat.zero_le 1
    · rw [hp]
      exact le_refl 1
  · intro now s
    constructor
    · intro h
      unfold checkActives
      rw [if_neg (by simp [h])]
    · intro h
      have hpos : 0 < (delKeys (sweepPushes now s.active) s.active).length :=
        List.length_pos.mpr h
      unfold checkActives
      rw [if_pos hpos]
      refine ⟨rfl, rfl, ?_⟩
      intro i d hslot hm
      rw [hslot] at hm
      unfold cancelSlot at hm
      rcases List.mem_filter.mp hm with ⟨_, hcond⟩
      exact absurd rfl (of_decide_eq_true hcond)

/-- C6 witness: one file event leaves at most one pending timer, and a
sweep over an empty Active Set schedules nothing. -/
theorem C6_witness :
    (wrun [WEv.file "a" (some 3) 0]).pending.length ≤ 1 ∧
    (checkActives 0 watcherInit).pending = watcherInit.pending := by
  have h := C6_single_timer
  exact ⟨h.1 [WEv.file "a" (some 3) 0], (h.2 0 watcherInit).1 (by decide)⟩

/-- C8: a path dequeued by the Watcher whose size reads zero (absent, or
present with zero size) is discarded, leaving the state untouched: never
added to the Active Set, no timestamp recorded, no sweep run; a path with
nonzero size has its Active Set timestamp set to the current time and a
sweep is run on the updated set (medio.py lines 161-165). -/
theorem C8_zero_size_discard (fsSize : String → Option Nat) (path : String) (now : Int)
    (s : WatcherSt) (hnd : (s.active.map Prod.fst).Nodup) :
    ((fsSize path = none ∨ fsSize path = some 0) → watcherProcessFile fsSize path now s = s) ∧
    (∀ n, fsSize path = some n → 0 < n →
      getKey path (watcherProcessFile fsSize path now s).active = some now ∧
      watcherProcessFile fsSize path now s =
        checkActives now { s with active := setKey path now s.active }) := by
  constructor
  · intro h
    rcases h with h | h
    · simp [watcherProcessFile, h]
    · simp [watcherProcessFile, h]
  · intro n hn hpos
    have heq : watcherProcessFile fsSize path now s =
        checkActives now { s with active := setKey path now s.active } := by
      simp [watcherProcessFile, hn, hpos]
    refine ⟨?_, heq⟩
    rw [heq]
    have hact : (checkActives now { s with active := setKey path now s.active }).active =
        delKeys (sweepPushes now (setKey path now s.active)) (setKey path now s.active) := by
      unfold checkActives
      by_cases hc : 0 < (delKeys (sweepPushes now (setKey path now s.active))
          (setKey path now s.active)).length
      · rw [if_pos hc]
      · rw [if_neg hc]
    rw [hact]
    apply getKey_delKeys (getKey_setKey_self path now s.active)
    intro hmem
    rcases mem_sweepPushes.mp hmem with ⟨t, htmem, htc⟩
    have hnd2 := setKey_nodup hnd path now
    have hself := mem_setKey_self path now s.active
    have ht : t = now := keyUnique hnd2 htmem hself
    rw [ht] at htc
    omega

/-- C8 witness: a zero-size path leaves the initial state untouched; a
nonzero-size path gets its timestamp recorded at the current time. -/
theorem C8_witness :
    watcherProcessFile (fun _ => some 0) "z" 0 watcherInit = watcherInit ∧
    getKey "a" (watcherProcessFile (fun _ => some 3) "a" 7 watcherInit).active = some 7 := by
  have h1 := C8_zero_size_discard (fun _ => some 0) "z" 0 watcherInit (by decide)
  have h2 := C8_zero_size_discard (fun _ => some 3) "a" 7 watcherInit (by decide)
  exact ⟨h1.1 (Or.inr rfl), (h2.2 3 rfl (by decide)).1⟩

/-- C9: the Event Router enqueues a created or closed-after-write event
onto the Watch Queue exactly when the path's lowercased extension is in
the accepted set, a moved-into-directory event directly onto the work
queue under the same condition, and an event with an unaccepted extension
onto neither queue (medio.py lines 195-216). -/
theorem C9_event_routing (k : EvKind) (p : String) :
    (routeEvent EvKind.create p = some (QueueId.watchQ, p) ↔ is_relevant_file p = true) ∧
    (routeEvent EvKind.closeWrite p = some (QueueId.watchQ, p) ↔ is_relevant_file p = true) ∧
    (routeEvent EvKind.movedTo p = some (QueueId.workQ, p) ↔ is_relevant_file p = true) ∧
    (is_relevant_file p = false → routeEvent k p = none) ∧
    (is_relevant_file p = true ↔ strLower (splitext p).2 ∈ ACCEPTED_EXTENSIONS) ∧
    routeEvent EvKind.movedTo p ≠ some (QueueId.watchQ, p) ∧
    routeEvent EvKind.create p ≠ some (QueueId.workQ, p) ∧
    routeEvent EvKind.closeWrite p ≠ some (QueueId.workQ, p) := by
  have hdef : is_relevant_file p = true ↔ strLower (splitext p).2 ∈ ACCEPTED_EXTENSIONS := by
    simp [is_relevant_file]
  by_cases hrel : is_relevant_file p = true
  · refine ⟨?_, ?_, ?_, ?_, hdef, ?_, ?_, ?_⟩
    · simp [routeEvent, hrel]
    · simp [routeEvent, hrel]
    · simp [routeEvent, hrel]
    · intro hf
      rw [hf] at hrel
      cases hrel
    · simp [routeEvent, hrel]
    · simp [routeEvent, hrel]
    · simp [routeEvent, hrel]
  · have hrel2 : is_relevant_file p = false := by
      revert hrel
      cases is_relevant_file p
      · intro _
        rfl
      · intro hx
        exact absurd rfl hx
    refine ⟨?_, ?_, ?_, ?_, hdef, ?_, ?_, ?_⟩
    · simp [routeEvent, hrel2]
    · simp [routeEvent, hrel2]
    · simp [routeEvent, hrel2]
    · intro _
      cases k
      · simp [routeEvent, hrel2]
      · simp [routeEvent, hrel2]
      · simp [routeEvent, hrel2]
    · simp [routeEvent, hrel2]
    · simp [routeEvent, hrel2]
    · simp [routeEvent, hrel2]

/-- C9 witness: an accepted uppercase-extension move goes to the work
queue, and an unaccepted extension is enqueued nowhere. -/
theorem C9_witness :
    routeEvent EvKind.movedTo "/source/a.JPG" = some (QueueId.workQ, "/source/a.JPG") ∧
    routeEvent EvKind.create "/source/a.txt" = none := by
  have h1 := C9_event_routing EvKind.movedTo "/source/a.JPG"
  have h2 := C9_event_routing EvKind.create "/source/a.txt"
  exact ⟨h1.2.2.1.mpr (by decide), h2.2.2.2.1 (by decide)⟩

/-- C10: with DELETE_DUPLICATE unset, Config construction raises TypeError
(string concatenated with the bool default True at medio.py line 29), so
startup aborts; with it set, construction succeeds and any non-empty
value, whatever it denotes, makes UI_DELETE_DUPS truthy, that is,
duplicate-deletion enabled. -/
theorem C10_config_typeerror (env : String → Option String) :
    (env "DELETE_DUPLICATE" = none → configInit env = Except.error "TypeError") ∧
    (∀ v, env "DELETE_DUPLICATE" = some v → v ≠ "" →
      pyTruthy (UI_DELETE_DUPS_of env) = true) ∧
    (∀ v, env "DELETE_DUPLICATE" = some v → ∃ ls, configInit env = Except.ok ls) := by
  refine ⟨?_, ?_, ?_⟩
  · intro h
    unfold configInit
    cases hF : env "FORMAT"
    · simp [envGet, pyStrAdd, h, hF]
    · simp [envGet, pyStrAdd, h, hF]
  · intro v hv hne
    simp [UI_DELETE_DUPS_of, envGet, hv, pyTruthy, hne]
  · intro v hv
    unfold configInit
    cases hF : env "FORMAT" <;> cases hL : env "LOCALE" <;>
      simp [envGet, pyStrAdd, hv, hF, hL]

/-- C10 witness: the empty environment aborts with TypeError, and the
value false, being a non-empty string, still enables duplicate-deletion. -/
theorem C10_witness :
    configInit (fun _ => none) = Except.error "TypeError" ∧
    pyTruthy (UI_DELETE_DUPS_of
      (fun k => if k = "DELETE_DUPLICATE" then some "false" else none)) = true := by
  have h1 := C10_config_typeerror (fun _ => none)
  have h2 := C10_config_typeerror (fun k => if k = "DELETE_DUPLICATE" then some "false" else none)
  exact ⟨h1.1 rfl, h2.2.1 "false" (by decide) (by decide)⟩
